import Mathlib

/-!
A verification development for a 2D quadtree spatial index (C++ source:
`Rect`, `GameObject`, `Quadtree` with `subdivide`, `insert`, `query`).

Coordinates are modelled as rationals (the source uses `float`; all the
behaviour under study is exact arithmetic on halving and comparison).
The recursive `insert` of the source is modelled with an explicit fuel
parameter, because for capacity 0 the source recursion does not
terminate; sufficient fuel is proved to exist whenever every node's
capacity is at least 1.
-/

/-- Axis-aligned bounding box `{x, y, width, height}`. -/
structure Rect where
  x : ℚ
  y : ℚ
  width : ℚ
  height : ℚ
deriving DecidableEq

/-- `Rect::contains`: inclusive point containment test. -/
def Rect.contains (r : Rect) (px py : ℚ) : Bool :=
  decide (px ≥ r.x) && decide (px ≤ r.x + r.width) &&
  decide (py ≥ r.y) && decide (py ≤ r.y + r.height)

/-- `Rect::intersects`: rectangles intersect unless one is strictly
outside the other along some axis (touching edges count). -/
def Rect.intersects (a b : Rect) : Bool :=
  !(decide (a.x + a.width < b.x) || decide (a.y + a.height < b.y) ||
    decide (a.x > b.x + b.width) || decide (a.y > b.y + b.height))

/-- `GameObject`: an id plus a bounding rectangle. -/
structure GameObject where
  id : Int
  bounds : Rect
deriving DecidableEq

/-- A quadtree node: `leaf` is a node that has not subdivided
(`divided == false`, no children), `node` is a subdivided node with its
four children in source order NE, NW, SE, SW. Both carry the boundary,
the capacity and the directly held object list. -/
inductive Quadtree where
  | leaf (boundary : Rect) (capacity : Nat) (objects : List GameObject)
  | node (boundary : Rect) (capacity : Nat) (objects : List GameObject)
      (c0 c1 c2 c3 : Quadtree)
deriving DecidableEq

/-- The boundary of a node. -/
def Quadtree.boundary : Quadtree → Rect
  | Quadtree.leaf b _ _ => b
  | Quadtree.node b _ _ _ _ _ _ => b

/-- The capacity of a node. -/
def Quadtree.capacity : Quadtree → Nat
  | Quadtree.leaf _ cap _ => cap
  | Quadtree.node _ cap _ _ _ _ _ => cap

/-- The list of objects held directly at a node. -/
def Quadtree.objects : Quadtree → List GameObject
  | Quadtree.leaf _ _ objs => objs
  | Quadtree.node _ _ objs _ _ _ _ => objs

/-- The `divided` flag of a node. -/
def Quadtree.divided : Quadtree → Bool
  | Quadtree.leaf _ _ _ => false
  | Quadtree.node _ _ _ _ _ _ _ => true

/-- The children of a node, in source iteration order. -/
def Quadtree.childList : Quadtree → List Quadtree
  | Quadtree.leaf _ _ _ => []
  | Quadtree.node _ _ _ c0 c1 c2 c3 => [c0, c1, c2, c3]

/-- `Quadtree::subdivide`: install four fresh children on the four equal
quadrants of the boundary (NE, NW, SE, SW), same capacity, and set the
`divided` flag; the node's own state is otherwise untouched. -/
def Quadtree.subdivide (t : Quadtree) : Quadtree :=
  Quadtree.node t.boundary t.capacity t.objects
    (Quadtree.leaf ⟨t.boundary.x + t.boundary.width / 2, t.boundary.y,
        t.boundary.width / 2, t.boundary.height / 2⟩ t.capacity [])
    (Quadtree.leaf ⟨t.boundary.x, t.boundary.y,
        t.boundary.width / 2, t.boundary.height / 2⟩ t.capacity [])
    (Quadtree.leaf ⟨t.boundary.x + t.boundary.width / 2, t.boundary.y + t.boundary.height / 2,
        t.boundary.width / 2, t.boundary.height / 2⟩ t.capacity [])
    (Quadtree.leaf ⟨t.boundary.x, t.boundary.y + t.boundary.height / 2,
        t.boundary.width / 2, t.boundary.height / 2⟩ t.capacity [])

/-- `Quadtree::insert`, with explicit fuel bounding the recursion depth
(the source recursion is unbounded for capacity 0). Returns the updated
tree together with the boolean result of the source function, or `none`
when the fuel runs out. -/
def Quadtree.insertF : Nat → Quadtree → GameObject → Option (Quadtree × Bool)
  | 0, _, _ => none
  | Nat.succ fuel, Quadtree.leaf b cap objs, obj =>
      if Rect.intersects b obj.bounds = false then
        some (Quadtree.leaf b cap objs, false)
      else if objs.length < cap then
        some (Quadtree.leaf b cap (objs ++ [obj]), true)
      else
        Quadtree.insertF fuel (Quadtree.subdivide (Quadtree.leaf b cap objs)) obj
  | Nat.succ fuel, Quadtree.node b cap objs c0 c1 c2 c3, obj =>
      if Rect.intersects b obj.bounds = false then
        some (Quadtree.node b cap objs c0 c1 c2 c3, false)
      else
        match Quadtree.insertF fuel c0 obj with
        | none => none
        | some (c0x, true) => some (Quadtree.node b cap objs c0x c1 c2 c3, true)
        | some (c0x, false) =>
          match Quadtree.insertF fuel c1 obj with
          | none => none
          | some (c1x, true) => some (Quadtree.node b cap objs c0x c1x c2 c3, true)
          | some (c1x, false) =>
            match Quadtree.insertF fuel c2 obj with
            | none => none
            | some (c2x, true) => some (Quadtree.node b cap objs c0x c1x c2x c3, true)
            | some (c2x, false) =>
              match Quadtree.insertF fuel c3 obj with
              | none => none
              | some (c3x, true) => some (Quadtree.node b cap objs c0x c1x c2x c3x, true)
              | some (c3x, false) =>
                some (Quadtree.node b cap (objs ++ [obj]) c0x c1x c2x c3x, true)

/-- Insert a list of objects in order, each with the same fuel. -/
def Quadtree.insertAllF (fuel : Nat) : Quadtree → List GameObject → Option Quadtree
  | t, [] => some t
  | t, obj :: rest =>
      match Quadtree.insertF fuel t obj with
      | none => none
      | some (tx, _) => Quadtree.insertAllF fuel tx rest

/-- `Quadtree::query`: collect, in traversal order, this node's direct
objects that intersect the range, then the four children's results;
prune the whole subtree when the range misses the boundary. -/
def Quadtree.query : Quadtree → Rect → List GameObject
  | Quadtree.leaf b _ objs, range =>
      if Rect.intersects b range = false then []
      else objs.filter (fun o => Rect.intersects range o.bounds)
  | Quadtree.node b _ objs c0 c1 c2 c3, range =>
      if Rect.intersects b range = false then []
      else objs.filter (fun o => Rect.intersects range o.bounds) ++
        Quadtree.query c0 range ++ Quadtree.query c1 range ++
        Quadtree.query c2 range ++ Quadtree.query c3 range

/-- The multiset of all objects stored anywhere in a subtree. -/
def Quadtree.allObjects : Quadtree → Multiset GameObject
  | Quadtree.leaf _ _ objs => (objs : Multiset GameObject)
  | Quadtree.node _ _ objs c0 c1 c2 c3 =>
      (objs : Multiset GameObject) + Quadtree.allObjects c0 + Quadtree.allObjects c1 +
        Quadtree.allObjects c2 + Quadtree.allObjects c3

/-- Every node of the tree has capacity at least 1. -/
def Quadtree.capOK : Quadtree → Bool
  | Quadtree.leaf _ cap _ => decide (1 ≤ cap)
  | Quadtree.node _ cap _ c0 c1 c2 c3 =>
      decide (1 ≤ cap) && Quadtree.capOK c0 && Quadtree.capOK c1 &&
        Quadtree.capOK c2 && Quadtree.capOK c3

/-- A fuel amount sufficient for one insertion anywhere in the tree,
provided every capacity is at least 1. -/
def Quadtree.fuelBound : Quadtree → Nat
  | Quadtree.leaf _ _ _ => 3
  | Quadtree.node _ _ _ c0 c1 c2 c3 =>
      1 + Quadtree.fuelBound c0 + Quadtree.fuelBound c1 +
        Quadtree.fuelBound c2 + Quadtree.fuelBound c3

/-- Every node that has never subdivided holds at most `capacity`
objects directly (no constraint on subdivided nodes). -/
def Quadtree.leafCapInv : Quadtree → Bool
  | Quadtree.leaf _ cap objs => decide (objs.length ≤ cap)
  | Quadtree.node _ _ _ c0 c1 c2 c3 =>
      Quadtree.leafCapInv c0 && Quadtree.leafCapInv c1 &&
        Quadtree.leafCapInv c2 && Quadtree.leafCapInv c3

/-- Half-open point membership, the standard reading of "the child
boundaries exactly tile the parent boundary with zero overlap and zero
gap". -/
def Rect.memHO (r : Rect) (px py : ℚ) : Prop :=
  r.x ≤ px ∧ px < r.x + r.width ∧ r.y ≤ py ∧ py < r.y + r.height

instance (r : Rect) (px py : ℚ) : Decidable (Rect.memHO r px py) := by
  unfold Rect.memHO
  infer_instance

theorem Quadtree.insertF_false {fuel : Nat} :
    ∀ {t tx : Quadtree} {obj : GameObject},
    Quadtree.insertF fuel t obj = some (tx, false) →
    Rect.intersects t.boundary obj.bounds = false ∧ tx = t := by
  induction fuel with
  | zero =>
    intro t tx obj h
    simp [Quadtree.insertF] at h
  | succ fuel ih =>
    intro t tx obj h
    cases t with
    | leaf b cap objs =>
      simp only [Quadtree.insertF] at h
      by_cases hI : Rect.intersects b obj.bounds = false
      · rw [if_pos hI] at h
        simp only [Option.some.injEq, Prod.mk.injEq] at h
        exact ⟨hI, h.1.symm⟩
      · rw [if_neg hI] at h
        by_cases hS : objs.length < cap
        · rw [if_pos hS] at h
          simp at h
        · rw [if_neg hS] at h
          have h2 := (ih h).1
          simp only [Quadtree.subdivide, Quadtree.boundary] at h2
          exact absurd h2 hI
    | node b cap objs c0 c1 c2 c3 =>
      simp only [Quadtree.insertF] at h
      by_cases hI : Rect.intersects b obj.bounds = false
      · rw [if_pos hI] at h
        simp only [Option.some.injEq, Prod.mk.injEq] at h
        exact ⟨hI, h.1.symm⟩
      · rw [if_neg hI] at h
        cases e0 : Quadtree.insertF fuel c0 obj with
        | none => rw [e0] at h; simp at h
        | some p0 =>
          obtain ⟨c0x, b0⟩ := p0
          rw [e0] at h
          cases b0 with
          | true => simp at h
          | false =>
            cases e1 : Quadtree.insertF fuel c1 obj with
            | none => rw [e1] at h; simp at h
            | some p1 =>
              obtain ⟨c1x, b1⟩ := p1
              rw [e1] at h
              cases b1 with
              | true => simp at h
              | false =>
                cases e2 : Quadtree.insertF fuel c2 obj with
                | none => rw [e2] at h; simp at h
                | some p2 =>
                  obtain ⟨c2x, b2⟩ := p2
                  rw [e2] at h
                  cases b2 with
                  | true => simp at h
                  | false =>
                    cases e3 : Quadtree.insertF fuel c3 obj with
                    | none => rw [e3] at h; simp at h
                    | some p3 =>
                      obtain ⟨c3x, b3⟩ := p3
                      rw [e3] at h
                      cases b3 with
                      | true => simp at h
                      | false => simp at h

theorem Quadtree.insertF_allObjects {fuel : Nat} :
    ∀ {t tx : Quadtree} {obj : GameObject},
    Quadtree.insertF fuel t obj = some (tx, true) →
    Quadtree.allObjects tx = obj ::ₘ Quadtree.allObjects t := by
  induction fuel with
  | zero =>
    intro t tx obj h
    simp [Quadtree.insertF] at h
  | succ fuel ih =>
    intro t tx obj h
    cases t with
    | leaf b cap objs =>
      simp only [Quadtree.insertF] at h
      by_cases hI : Rect.intersects b obj.bounds = false
      · rw [if_pos hI] at h
        simp at h
      · rw [if_neg hI] at h
        by_cases hS : objs.length < cap
        · rw [if_pos hS] at h
          simp only [Option.some.injEq, Prod.mk.injEq] at h
          rw [← h.1]
          simp only [Quadtree.allObjects, ← Multiset.cons_coe]
          exact Multiset.coe_eq_coe.mpr (List.perm_append_singleton _ _)
        · rw [if_neg hS] at h
          have h2 := ih h
          rw [h2]
          simp [Quadtree.subdivide, Quadtree.allObjects, Quadtree.boundary,
            Quadtree.capacity, Quadtree.objects]
    | node b cap objs c0 c1 c2 c3 =>
      simp only [Quadtree.insertF] at h
      by_cases hI : Rect.intersects b obj.bounds = false
      · rw [if_pos hI] at h
        simp at h
      · rw [if_neg hI] at h
        cases e0 : Quadtree.insertF fuel c0 obj with
        | none => rw [e0] at h; simp at h
        | some p0 =>
          obtain ⟨c0x, b0⟩ := p0
          rw [e0] at h
          cases b0 with
          | true =>
            simp only [Option.some.injEq, Prod.mk.injEq] at h
            rw [← h.1]
            simp only [Quadtree.allObjects, ih e0, Multiset.add_cons, Multiset.cons_add]
          | false =>
            obtain rfl : c0x = c0 := (Quadtree.insertF_false e0).2
            cases e1 : Quadtree.insertF fuel c1 obj with
            | none => rw [e1] at h; simp at h
            | some p1 =>
              obtain ⟨c1x, b1⟩ := p1
              rw [e1] at h
              cases b1 with
              | true =>
                simp only [Option.some.injEq, Prod.mk.injEq] at h
                rw [← h.1]
                simp only [Quadtree.allObjects, ih e1, Multiset.add_cons, Multiset.cons_add]
              | false =>
                obtain rfl : c1x = c1 := (Quadtree.insertF_false e1).2
                cases e2 : Quadtree.insertF fuel c2 obj with
                | none => rw [e2] at h; simp at h
                | some p2 =>
                  obtain ⟨c2x, b2⟩ := p2
                  rw [e2] at h
                  cases b2 with
                  | true =>
                    simp only [Option.some.injEq, Prod.mk.injEq] at h
                    rw [← h.1]
                    simp only [Quadtree.allObjects, ih e2, Multiset.add_cons, Multiset.cons_add]
                  | false =>
                    obtain rfl : c2x = c2 := (Quadtree.insertF_false e2).2
                    cases e3 : Quadtree.insertF fuel c3 obj with
                    | none => rw [e3] at h; simp at h
                    | some p3 =>
                      obtain ⟨c3x, b3⟩ := p3
                      rw [e3] at h
                      cases b3 with
                      | true =>
                        simp only [Option.some.injEq, Prod.mk.injEq] at h
                        rw [← h.1]
                        simp only [Quadtree.allObjects, ih e3, Multiset.add_cons, Multiset.cons_add]
                      | false =>
                        obtain rfl : c3x = c3 := (Quadtree.insertF_false e3).2
                        simp only [Option.some.injEq, Prod.mk.injEq] at h
                        rw [← h.1]
                        simp only [Quadtree.allObjects, ← Multiset.cons_coe]
                        have hp : ((objs ++ [obj] : List GameObject) : Multiset GameObject) =
                            ((obj :: objs : List GameObject) : Multiset GameObject) :=
                          Multiset.coe_eq_coe.mpr (List.perm_append_singleton _ _)
                        rw [hp]
                        simp only [← Multiset.cons_coe, Multiset.cons_add]

theorem Quadtree.insertF_emptyLeaf_isSome {fuel : Nat} {b : Rect} {cap : Nat}
    {obj : GameObject} (hcap : 1 ≤ cap) :
    (Quadtree.insertF (fuel + 1) (Quadtree.leaf b cap []) obj).isSome = true := by
  simp only [Quadtree.insertF]
  by_cases hI : Rect.intersects b obj.bounds = false
  · rw [if_pos hI]; rfl
  · rw [if_neg hI, if_pos (show List.length [] < cap from hcap)]; rfl

theorem Quadtree.insertF_node_isSome {fuel : Nat} {b : Rect} {cap : Nat}
    {objs : List GameObject} {c0 c1 c2 c3 : Quadtree} {obj : GameObject}
    (h0 : (Quadtree.insertF fuel c0 obj).isSome = true)
    (h1 : (Quadtree.insertF fuel c1 obj).isSome = true)
    (h2 : (Quadtree.insertF fuel c2 obj).isSome = true)
    (h3 : (Quadtree.insertF fuel c3 obj).isSome = true) :
    (Quadtree.insertF (fuel + 1) (Quadtree.node b cap objs c0 c1 c2 c3) obj).isSome = true := by
  simp only [Quadtree.insertF]
  by_cases hI : Rect.intersects b obj.bounds = false
  · rw [if_pos hI]; rfl
  · rw [if_neg hI]
    obtain ⟨⟨c0x, b0⟩, e0⟩ := Option.isSome_iff_exists.mp h0
    rw [e0]
    cases b0 with
    | true => rfl
    | false =>
      obtain ⟨⟨c1x, b1⟩, e1⟩ := Option.isSome_iff_exists.mp h1
      rw [e1]
      cases b1 with
      | true => rfl
      | false =>
        obtain ⟨⟨c2x, b2⟩, e2⟩ := Option.isSome_iff_exists.mp h2
        rw [e2]
        cases b2 with
        | true => rfl
        | false =>
          obtain ⟨⟨c3x, b3⟩, e3⟩ := Option.isSome_iff_exists.mp h3
          rw [e3]
          cases b3 with
          | true => rfl
          | false => rfl

theorem Quadtree.insertF_isSome :
    ∀ (t : Quadtree), Quadtree.capOK t = true →
    ∀ (fuel : Nat), Quadtree.fuelBound t ≤ fuel →
    ∀ (obj : GameObject), (Quadtree.insertF fuel t obj).isSome = true := by
  intro t
  induction t with
  | leaf b cap objs =>
    intro hcap fuel hfuel obj
    simp only [Quadtree.capOK, decide_eq_true_eq] at hcap
    simp only [Quadtree.fuelBound] at hfuel
    obtain ⟨g, rfl⟩ : ∃ g, fuel = g + 1 + 1 := ⟨fuel - 2, by omega⟩
    simp only [Quadtree.insertF]
    by_cases hI : Rect.intersects b obj.bounds = false
    · rw [if_pos hI]; rfl
    · rw [if_neg hI]
      by_cases hS : objs.length < cap
      · rw [if_pos hS]; rfl
      · rw [if_neg hS]
        simp only [Quadtree.subdivide, Quadtree.boundary, Quadtree.capacity, Quadtree.objects]
        obtain ⟨e, rfl⟩ : ∃ e, g = e + 1 := ⟨g - 1, by omega⟩
        exact Quadtree.insertF_node_isSome
          (Quadtree.insertF_emptyLeaf_isSome hcap) (Quadtree.insertF_emptyLeaf_isSome hcap)
          (Quadtree.insertF_emptyLeaf_isSome hcap) (Quadtree.insertF_emptyLeaf_isSome hcap)
  | node b cap objs c0 c1 c2 c3 ih0 ih1 ih2 ih3 =>
    intro hcap fuel hfuel obj
    simp only [Quadtree.capOK, Bool.and_eq_true, decide_eq_true_eq] at hcap
    obtain ⟨⟨⟨⟨hc, h0⟩, h1⟩, h2⟩, h3⟩ := hcap
    simp only [Quadtree.fuelBound] at hfuel
    obtain ⟨f, rfl⟩ : ∃ f, fuel = f + 1 := ⟨fuel - 1, by omega⟩
    exact Quadtree.insertF_node_isSome
      (ih0 h0 f (by omega) obj) (ih1 h1 f (by omega) obj)
      (ih2 h2 f (by omega) obj) (ih3 h3 f (by omega) obj)

theorem Quadtree.mem_query_intersects :
    ∀ (t : Quadtree) (r : Rect) (obj : GameObject),
    obj ∈ Quadtree.query t r → Rect.intersects r obj.bounds = true := by
  intro t
  induction t with
  | leaf b cap objs =>
    intro r obj h
    simp only [Quadtree.query] at h
    split at h
    · simp at h
    · exact (List.mem_filter.mp h).2
  | node b cap objs c0 c1 c2 c3 ih0 ih1 ih2 ih3 =>
    intro r obj h
    simp only [Quadtree.query] at h
    split at h
    · simp at h
    · simp only [List.mem_append] at h
      rcases h with ((((h | h) | h) | h) | h)
      · exact (List.mem_filter.mp h).2
      · exact ih0 r obj h
      · exact ih1 r obj h
      · exact ih2 r obj h
      · exact ih3 r obj h

theorem Quadtree.count_query_le (t : Quadtree) (r : Rect) (x : GameObject) :
    (Quadtree.query t r).count x ≤ Multiset.count x (Quadtree.allObjects t) := by
  induction t with
  | leaf b cap objs =>
    simp only [Quadtree.query, Quadtree.allObjects]
    split
    · simp
    · rw [Multiset.coe_count]
      exact List.Sublist.count_le (List.filter_sublist _) x
  | node b cap objs c0 c1 c2 c3 ih0 ih1 ih2 ih3 =>
    simp only [Quadtree.query, Quadtree.allObjects]
    split
    · simp
    · simp only [List.count_append, Multiset.count_add, Multiset.coe_count]
      have hf : (objs.filter (fun o => Rect.intersects r o.bounds)).count x ≤ objs.count x :=
        List.Sublist.count_le (List.filter_sublist _) x
      omega

theorem Quadtree.insertAllF_count_le (fuel : Nat) :
    ∀ (L : List GameObject) (t tx : Quadtree),
    Quadtree.insertAllF fuel t L = some tx →
    ∀ x : GameObject,
      Multiset.count x (Quadtree.allObjects tx) ≤
        Multiset.count x (Quadtree.allObjects t) + L.count x := by
  intro L
  induction L with
  | nil =>
    intro t tx h x
    simp only [Quadtree.insertAllF, Option.some.injEq] at h
    subst h
    simp
  | cons obj rest ih =>
    intro t tx h x
    simp only [Quadtree.insertAllF] at h
    cases e : Quadtree.insertF fuel t obj with
    | none => rw [e] at h; simp at h
    | some p =>
      obtain ⟨t1, bb⟩ := p
      rw [e] at h
      have hx := ih t1 tx h x
      have hcount : rest.count x ≤ (obj :: rest).count x := by
        rw [List.count_cons]
        omega
      cases bb with
      | false =>
        obtain rfl : t1 = t := (Quadtree.insertF_false e).2
        omega
      | true =>
        have hall := Quadtree.insertF_allObjects e
        rw [hall, Multiset.count_cons] at hx
        rw [List.count_cons]
        by_cases hxo : x = obj
        · simp [hxo] at hx ⊢
          omega
        · simp [hxo] at hx ⊢
          omega

theorem Quadtree.insertF_leafCapInv {fuel : Nat} :
    ∀ {t tx : Quadtree} {obj : GameObject} {res : Bool},
    Quadtree.leafCapInv t = true →
    Quadtree.insertF fuel t obj = some (tx, res) →
    Quadtree.leafCapInv tx = true := by
  induction fuel with
  | zero =>
    intro t tx obj res _ h
    simp [Quadtree.insertF] at h
  | succ fuel ih =>
    intro t tx obj res hinv h
    cases t with
    | leaf b cap objs =>
      simp only [Quadtree.insertF] at h
      by_cases hI : Rect.intersects b obj.bounds = false
      · rw [if_pos hI] at h
        simp only [Option.some.injEq, Prod.mk.injEq] at h
        rw [← h.1]
        exact hinv
      · rw [if_neg hI] at h
        by_cases hS : objs.length < cap
        · rw [if_pos hS] at h
          simp only [Option.some.injEq, Prod.mk.injEq] at h
          rw [← h.1]
          simp only [Quadtree.leafCapInv, List.length_append, List.length_singleton,
            decide_eq_true_eq]
          omega
        · rw [if_neg hS] at h
          refine ih ?_ h
          simp [Quadtree.subdivide, Quadtree.leafCapInv, Quadtree.boundary,
            Quadtree.capacity, Quadtree.objects]
    | node b cap objs c0 c1 c2 c3 =>
      simp only [Quadtree.leafCapInv, Bool.and_eq_true] at hinv
      obtain ⟨⟨⟨i0, i1⟩, i2⟩, i3⟩ := hinv
      simp only [Quadtree.insertF] at h
      by_cases hI : Rect.intersects b obj.bounds = false
      · rw [if_pos hI] at h
        simp only [Option.some.injEq, Prod.mk.injEq] at h
        rw [← h.1]
        simp [Quadtree.leafCapInv, i0, i1, i2, i3]
      · rw [if_neg hI] at h
        cases e0 : Quadtree.insertF fuel c0 obj with
        | none => rw [e0] at h; simp at h
        | some p0 =>
          obtain ⟨c0x, b0⟩ := p0
          rw [e0] at h
          have j0 := ih i0 e0
          cases b0 with
          | true =>
            simp only [Option.some.injEq, Prod.mk.injEq] at h
            rw [← h.1]
            simp [Quadtree.leafCapInv, j0, i1, i2, i3]
          | false =>
            cases e1 : Quadtree.insertF fuel c1 obj with
            | none => rw [e1] at h; simp at h
            | some p1 =>
              obtain ⟨c1x, b1⟩ := p1
              rw [e1] at h
              have j1 := ih i1 e1
              cases b1 with
              | true =>
                simp only [Option.some.injEq, Prod.mk.injEq] at h
                rw [← h.1]
                simp [Quadtree.leafCapInv, j0, j1, i2, i3]
              | false =>
                cases e2 : Quadtree.insertF fuel c2 obj with
                | none => rw [e2] at h; simp at h
                | some p2 =>
                  obtain ⟨c2x, b2⟩ := p2
                  rw [e2] at h
                  have j2 := ih i2 e2
                  cases b2 with
                  | true =>
                    simp only [Option.some.injEq, Prod.mk.injEq] at h
                    rw [← h.1]
                    simp [Quadtree.leafCapInv, j0, j1, j2, i3]
                  | false =>
                    cases e3 : Quadtree.insertF fuel c3 obj with
                    | none => rw [e3] at h; simp at h
                    | some p3 =>
                      obtain ⟨c3x, b3⟩ := p3
                      rw [e3] at h
                      have j3 := ih i3 e3
                      cases b3 with
                      | true =>
                        simp only [Option.some.injEq, Prod.mk.injEq] at h
                        rw [← h.1]
                        simp [Quadtree.leafCapInv, j0, j1, j2, j3]
                      | false =>
                        simp only [Option.some.injEq, Prod.mk.injEq] at h
                        rw [← h.1]
                        simp [Quadtree.leafCapInv, j0, j1, j2, j3]

/-- First object of the overflow scenario, stored directly at the root. -/
def c10obj1 : GameObject := ⟨1, ⟨0, 0, 1, 1⟩⟩

/-- Second object of the overflow scenario; its insertion forces the
root to subdivide and it lands in the NW child. -/
def c10obj2 : GameObject := ⟨2, ⟨2, 2, 1, 1⟩⟩

/-- A degenerate (negative-size) object whose bounds intersect the root
boundary under `Rect.intersects` but intersect none of the four child
boundaries, so every insertion of it takes the fallback path. -/
def c10bad : GameObject := ⟨99, ⟨12, 12, -4, -4⟩⟩

/-- The subdivided root reached by inserting `c10obj1` then `c10obj2`
into a capacity-1 tree over `{0,0,20,20}`, with its direct list
abstracted so that repeated fallback insertions can be traced. -/
def c10tree (objs : List GameObject) : Quadtree :=
  Quadtree.node ⟨0, 0, 20, 20⟩ 1 objs
    (Quadtree.leaf ⟨10, 0, 10, 10⟩ 1 [])
    (Quadtree.leaf ⟨0, 0, 10, 10⟩ 1 [c10obj2])
    (Quadtree.leaf ⟨10, 10, 10, 10⟩ 1 [])
    (Quadtree.leaf ⟨0, 10, 10, 10⟩ 1 [])

theorem c10_step (objs : List GameObject) :
    Quadtree.insertF 2 (c10tree objs) c10bad = some (c10tree (objs ++ [c10bad]), true) := by
  simp only [c10tree, Quadtree.insertF, c10bad]
  norm_num [Rect.intersects]

theorem c10_growth :
    ∀ (n : Nat) (objs : List GameObject),
    (Quadtree.insertAllF 2 (c10tree objs) (List.replicate n c10bad)).map
      (fun t => (t.divided, t.objects.length, t.capacity)) =
      some (true, objs.length + n, 1) := by
  intro n
  induction n with
  | zero =>
    intro objs
    simp [Quadtree.insertAllF, c10tree, Quadtree.divided, Quadtree.objects, Quadtree.capacity]
  | succ n ih =>
    intro objs
    rw [List.replicate_succ]
    simp only [Quadtree.insertAllF, c10_step objs]
    have h := ih (objs ++ [c10bad])
    simp only [List.length_append, List.length_singleton] at h
    rw [show objs.length + (n + 1) = objs.length + 1 + n by omega]
    exact h

/-- Claim C3: query soundness — every object appearing in the result of
`query t r` has bounds that intersect `r` (the query filters each
node's direct list with the range test), for every tree state. -/
theorem c3_query_soundness (t : Quadtree) (r : Rect) (obj : GameObject)
    (h : obj ∈ Quadtree.query t r) : Rect.intersects r obj.bounds = true :=
  Quadtree.mem_query_intersects t r obj h

unseal Rat.add Rat.mul Rat.inv in
/-- Witness for C3 at a concrete tree, range and returned object. -/
theorem c3_query_soundness_witness :
    Rect.intersects (⟨0, 0, 10, 10⟩ : Rect) (⟨1, ⟨1, 1, 2, 2⟩⟩ : GameObject).bounds = true :=
  c3_query_soundness (Quadtree.leaf ⟨0, 0, 10, 10⟩ 4 [⟨1, ⟨1, 1, 2, 2⟩⟩]) ⟨0, 0, 10, 10⟩
    ⟨1, ⟨1, 1, 2, 2⟩⟩ (by decide)

/-- Claim C4: insert return-value semantics — `insert` returns `false`
exactly when the object's bounds do not intersect the node's boundary,
leaving the tree unchanged in that case; when the bounds do intersect
the boundary (and every capacity is at least 1 so the recursion
completes), the object is stored somewhere in the subtree and `insert`
returns `true`. -/
theorem c4_insert_result_semantics :
    (∀ (fuel : Nat) (t : Quadtree) (obj : GameObject),
      Rect.intersects t.boundary obj.bounds = false →
      Quadtree.insertF (fuel + 1) t obj = some (t, false)) ∧
    (∀ (fuel : Nat) (t tx : Quadtree) (obj : GameObject),
      Quadtree.insertF fuel t obj = some (tx, false) →
      Rect.intersects t.boundary obj.bounds = false ∧ tx = t) ∧
    (∀ (t : Quadtree) (obj : GameObject),
      Quadtree.capOK t = true →
      Rect.intersects t.boundary obj.bounds = true →
      ∃ tx, Quadtree.insertF (Quadtree.fuelBound t) t obj = some (tx, true) ∧
        obj ∈ Quadtree.allObjects tx) := by
  refine ⟨?_, ?_, ?_⟩
  · intro fuel t obj h
    cases t with
    | leaf b cap objs =>
      simp only [Quadtree.boundary] at h
      simp only [Quadtree.insertF]
      rw [if_pos h]
    | node b cap objs c0 c1 c2 c3 =>
      simp only [Quadtree.boundary] at h
      simp only [Quadtree.insertF]
      rw [if_pos h]
  · intro fuel t tx obj h
    exact Quadtree.insertF_false h
  · intro t obj hcap hI
    have hs := Quadtree.insertF_isSome t hcap _ (Nat.le_refl _) obj
    obtain ⟨⟨tx, bb⟩, e⟩ := Option.isSome_iff_exists.mp hs
    cases bb with
    | false =>
      have hcontra := (Quadtree.insertF_false e).1
      rw [hI] at hcontra
      simp at hcontra
    | true =>
      refine ⟨tx, e, ?_⟩
      rw [Quadtree.insertF_allObjects e]
      exact Multiset.mem_cons_self _ _

unseal Rat.add in
/-- Witness for C4 at a concrete node and non-intersecting object. -/
theorem c4_insert_result_semantics_witness :
    Quadtree.insertF 1 (Quadtree.leaf ⟨0, 0, 1, 1⟩ 1 []) ⟨1, ⟨5, 5, 1, 1⟩⟩ =
      some (Quadtree.leaf ⟨0, 0, 1, 1⟩ 1 [], false) :=
  c4_insert_result_semantics.1 0 (Quadtree.leaf ⟨0, 0, 1, 1⟩ 1 []) ⟨1, ⟨5, 5, 1, 1⟩⟩ (by decide)

unseal Rat.add in
/-- Claim C5: inclusive-touch intersection — `intersects` is false
exactly when one rectangle lies strictly outside the other along some
axis; rectangles sharing only an edge or corner intersect; and the
same predicate guards the insert boundary check and the query tests. -/
theorem c5_inclusive_intersection :
    (∀ a b : Rect, Rect.intersects a b = false ↔
      (a.x + a.width < b.x ∨ a.y + a.height < b.y ∨
        b.x + b.width < a.x ∨ b.y + b.height < a.y)) ∧
    Rect.intersects ⟨0, 0, 10, 10⟩ ⟨10, 0, 10, 10⟩ = true ∧
    Rect.intersects ⟨10, 0, 10, 10⟩ ⟨0, 0, 10, 10⟩ = true ∧
    (∀ (t : Quadtree) (r : Rect),
      Rect.intersects t.boundary r = false → Quadtree.query t r = []) ∧
    (∀ (fuel : Nat) (t : Quadtree) (obj : GameObject),
      Rect.intersects t.boundary obj.bounds = false →
      Quadtree.insertF (fuel + 1) t obj = some (t, false)) := by
  refine ⟨?_, by decide, by decide, ?_, ?_⟩
  · intro a b
    simp only [Rect.intersects, Bool.not_eq_false', Bool.or_eq_true, decide_eq_true_eq,
      gt_iff_lt]
    tauto
  · intro t r h
    cases t with
    | leaf b cap objs =>
      simp only [Quadtree.boundary] at h
      simp [Quadtree.query, h]
    | node b cap objs c0 c1 c2 c3 =>
      simp only [Quadtree.boundary] at h
      simp [Quadtree.query, h]
  · intro fuel t obj h
    cases t with
    | leaf b cap objs =>
      simp only [Quadtree.boundary] at h
      simp only [Quadtree.insertF]
      rw [if_pos h]
    | node b cap objs c0 c1 c2 c3 =>
      simp only [Quadtree.boundary] at h
      simp only [Quadtree.insertF]
      rw [if_pos h]

unseal Rat.add in
/-- Witness for C5's operation conjuncts at a concrete tree and range. -/
theorem c5_inclusive_intersection_witness :
    Quadtree.query (Quadtree.leaf ⟨0, 0, 1, 1⟩ 1 []) ⟨5, 5, 1, 1⟩ = [] :=
  c5_inclusive_intersection.2.2.2.1 (Quadtree.leaf ⟨0, 0, 1, 1⟩ 1 []) ⟨5, 5, 1, 1⟩ (by decide)

/-- Claim C7: subdivision frame — `subdivide` changes only the children
and the divided flag: boundary, capacity and the direct object list are
untouched (pre-existing objects are not redistributed), and all four
fresh children are empty leaves with the parent's capacity. -/
theorem c7_subdivide_frame (t : Quadtree) :
    (Quadtree.subdivide t).boundary = t.boundary ∧
    (Quadtree.subdivide t).capacity = t.capacity ∧
    (Quadtree.subdivide t).objects = t.objects ∧
    (Quadtree.subdivide t).divided = true ∧
    (Quadtree.subdivide t).childList.length = 4 ∧
    ∀ c ∈ (Quadtree.subdivide t).childList,
      c.objects = [] ∧ c.capacity = t.capacity ∧ c.divided = false := by
  refine ⟨rfl, rfl, rfl, rfl, rfl, ?_⟩
  intro c hc
  simp only [Quadtree.subdivide, Quadtree.childList, List.mem_cons,
    List.not_mem_nil, or_false] at hc
  rcases hc with rfl | rfl | rfl | rfl <;> exact ⟨rfl, rfl, rfl⟩

unseal Rat.add Rat.mul Rat.inv in
/-- Witness for C7 at a concrete parent and one of its fresh children. -/
theorem c7_subdivide_frame_witness :
    (Quadtree.leaf ⟨1, 1, 1, 1⟩ 5 [] : Quadtree).objects = [] ∧
    (Quadtree.leaf ⟨1, 1, 1, 1⟩ 5 [] : Quadtree).capacity = 5 ∧
    (Quadtree.leaf ⟨1, 1, 1, 1⟩ 5 [] : Quadtree).divided = false :=
  (c7_subdivide_frame (Quadtree.leaf ⟨0, 0, 2, 2⟩ 5 [⟨1, ⟨0, 0, 1, 1⟩⟩])).2.2.2.2.2
    (Quadtree.leaf ⟨1, 1, 1, 1⟩ 5 []) (by decide)

/-- Claim C9: termination — on every tree in which each node's capacity
is at least 1, an insertion completes within `fuelBound t` recursion
fuel, so the source recursion of `insert` is bounded (and `query` is a
total function of the embedding). -/
theorem c9_insert_terminates (t : Quadtree) (obj : GameObject)
    (hcap : Quadtree.capOK t = true) :
    (Quadtree.insertF (Quadtree.fuelBound t) t obj).isSome = true :=
  Quadtree.insertF_isSome t hcap _ (Nat.le_refl _) obj

/-- Witness for C9 at a concrete tree and object. -/
theorem c9_insert_terminates_witness :
    (Quadtree.insertF (Quadtree.fuelBound (Quadtree.leaf ⟨0, 0, 4, 4⟩ 1 []))
      (Quadtree.leaf ⟨0, 0, 4, 4⟩ 1 []) ⟨1, ⟨1, 1, 1, 1⟩⟩).isSome = true :=
  c9_insert_terminates (Quadtree.leaf ⟨0, 0, 4, 4⟩ 1 []) ⟨1, ⟨1, 1, 1, 1⟩⟩ (by decide)

/-- Claim C8: single storage — a successful insert adds the object to
exactly one node's direct list (the whole-tree multiset of stored
objects gains exactly one copy of it), and after inserting a list of
pairwise-distinct objects into a fresh tree no object is stored in more
than one node's list and `query` never returns duplicate entries. -/
theorem c8_single_storage :
    (∀ (fuel : Nat) (t tx : Quadtree) (obj : GameObject),
      Quadtree.insertF fuel t obj = some (tx, true) →
      Quadtree.allObjects tx = obj ::ₘ Quadtree.allObjects t) ∧
    (∀ (fuel : Nat) (b : Rect) (cap : Nat) (L : List GameObject) (tx : Quadtree) (r : Rect),
      L.Nodup →
      Quadtree.insertAllF fuel (Quadtree.leaf b cap []) L = some tx →
      (∀ x : GameObject, Multiset.count x (Quadtree.allObjects tx) ≤ 1) ∧
      (Quadtree.query tx r).Nodup) := by
  refine ⟨fun fuel t tx obj h => Quadtree.insertF_allObjects h, ?_⟩
  intro fuel b cap L tx r hnd hins
  have hcnt : ∀ x : GameObject, Multiset.count x (Quadtree.allObjects tx) ≤ 1 := by
    intro x
    have h1 := Quadtree.insertAllF_count_le fuel L (Quadtree.leaf b cap []) tx hins x
    have h2 : L.count x ≤ 1 := List.nodup_iff_count_le_one.mp hnd x
    simp only [Quadtree.allObjects, Multiset.coe_nil, Multiset.count_zero, Nat.zero_add] at h1
    omega
  refine ⟨hcnt, ?_⟩
  rw [List.nodup_iff_count_le_one]
  intro x
  exact le_trans (Quadtree.count_query_le tx r x) (hcnt x)

unseal Rat.add in
/-- Witness for C8 at a concrete insertion sequence and query. -/
theorem c8_single_storage_witness :
    (Quadtree.query (Quadtree.leaf ⟨0, 0, 4, 4⟩ 2 [⟨1, ⟨1, 1, 1, 1⟩⟩]) ⟨0, 0, 4, 4⟩).Nodup :=
  (c8_single_storage.2 1 ⟨0, 0, 4, 4⟩ 2 [⟨1, ⟨1, 1, 1, 1⟩⟩]
    (Quadtree.leaf ⟨0, 0, 4, 4⟩ 2 [⟨1, ⟨1, 1, 1, 1⟩⟩]) ⟨0, 0, 4, 4⟩ (by decide) (by decide)).2

unseal Rat.add Rat.mul Rat.inv in
/-- Claim C10: capacity bounds only undivided leaves — the bound
`objects.length ≤ capacity` on never-subdivided nodes is preserved by
every insertion, while a subdivided node accepts fallback insertions
with no capacity check: a reachable capacity-1 subdivided root whose
boundary the degenerate object `c10bad` intersects while no child
boundary does absorbs `n` such insertions, and its direct list reaches
length `1 + n`, beyond any bound. -/
theorem c10_leaf_capacity_invariant :
    (∀ (fuel : Nat) (t tx : Quadtree) (obj : GameObject) (res : Bool),
      Quadtree.leafCapInv t = true →
      Quadtree.insertF fuel t obj = some (tx, res) →
      Quadtree.leafCapInv tx = true) ∧
    Quadtree.insertAllF 3 (Quadtree.leaf ⟨0, 0, 20, 20⟩ 1 []) [c10obj1, c10obj2] =
      some (c10tree [c10obj1]) ∧
    Rect.intersects (c10tree [c10obj1]).boundary c10bad.bounds = true ∧
    (∀ c ∈ (c10tree [c10obj1]).childList, Rect.intersects c.boundary c10bad.bounds = false) ∧
    (∀ n : Nat,
      (Quadtree.insertAllF 2 (c10tree [c10obj1]) (List.replicate n c10bad)).map
        (fun t => (t.divided, t.objects.length, t.capacity)) = some (true, 1 + n, 1)) := by
  refine ⟨fun fuel t tx obj res hinv h => Quadtree.insertF_leafCapInv hinv h,
    by decide, by decide, by decide, ?_⟩
  intro n
  have h := c10_growth n [c10obj1]
  simpa using h

unseal Rat.add in
/-- Witness for C10's invariant part at a concrete insertion. -/
theorem c10_leaf_capacity_invariant_witness :
    Quadtree.leafCapInv (Quadtree.leaf ⟨0, 0, 4, 4⟩ 1 [⟨1, ⟨1, 1, 1, 1⟩⟩]) = true :=
  c10_leaf_capacity_invariant.1 1 (Quadtree.leaf ⟨0, 0, 4, 4⟩ 1 [])
    (Quadtree.leaf ⟨0, 0, 4, 4⟩ 1 [⟨1, ⟨1, 1, 1, 1⟩⟩]) ⟨1, ⟨1, 1, 1, 1⟩⟩ true
    (by decide) (by decide)

/-- Claim C6: subdivision geometry — `subdivide` creates exactly four
children whose boundaries are the four equal quadrants obtained by
halving the parent's width and height, each constructed with the
parent's capacity, and the four quadrants exactly tile the parent
boundary: every half-open point of the parent lies in at least one
quadrant and no point lies in two. -/
theorem c6_subdivision_geometry (t : Quadtree) :
    ∃ q0 q1 q2 q3 : Rect,
      Quadtree.subdivide t = Quadtree.node t.boundary t.capacity t.objects
        (Quadtree.leaf q0 t.capacity []) (Quadtree.leaf q1 t.capacity [])
        (Quadtree.leaf q2 t.capacity []) (Quadtree.leaf q3 t.capacity []) ∧
      q0 = ⟨t.boundary.x + t.boundary.width / 2, t.boundary.y,
        t.boundary.width / 2, t.boundary.height / 2⟩ ∧
      q1 = ⟨t.boundary.x, t.boundary.y, t.boundary.width / 2, t.boundary.height / 2⟩ ∧
      q2 = ⟨t.boundary.x + t.boundary.width / 2, t.boundary.y + t.boundary.height / 2,
        t.boundary.width / 2, t.boundary.height / 2⟩ ∧
      q3 = ⟨t.boundary.x, t.boundary.y + t.boundary.height / 2,
        t.boundary.width / 2, t.boundary.height / 2⟩ ∧
      (∀ px py : ℚ,
        Rect.memHO t.boundary px py ↔
          (Rect.memHO q0 px py ∨ Rect.memHO q1 px py ∨
            Rect.memHO q2 px py ∨ Rect.memHO q3 px py)) ∧
      (∀ px py : ℚ, List.Pairwise
        (fun a b => ¬(Rect.memHO a px py ∧ Rect.memHO b px py)) [q0, q1, q2, q3]) := by
  refine ⟨_, _, _, _, rfl, rfl, rfl, rfl, rfl, ?_, ?_⟩
  · intro px py
    simp only [Rect.memHO]
    constructor
    · rintro ⟨hx1, hx2, hy1, hy2⟩
      rcases le_or_lt (t.boundary.x + t.boundary.width / 2) px with hx | hx
      · rcases le_or_lt (t.boundary.y + t.boundary.height / 2) py with hy | hy
        · exact Or.inr (Or.inr (Or.inl ⟨hx, by linarith, hy, by linarith⟩))
        · exact Or.inl ⟨hx, by linarith, hy1, hy⟩
      · rcases le_or_lt (t.boundary.y + t.boundary.height / 2) py with hy | hy
        · exact Or.inr (Or.inr (Or.inr ⟨hx1, hx, hy, by linarith⟩))
        · exact Or.inr (Or.inl ⟨hx1, hx, hy1, hy⟩)
    · rintro (⟨h1, h2, h3, h4⟩ | ⟨h1, h2, h3, h4⟩ | ⟨h1, h2, h3, h4⟩ | ⟨h1, h2, h3, h4⟩) <;>
        exact ⟨by linarith, by linarith, by linarith, by linarith⟩
  · intro px py
    refine List.Pairwise.cons ?_ (List.Pairwise.cons ?_ (List.Pairwise.cons ?_
      (List.pairwise_singleton _ _)))
    · intro a ha
      simp only [List.mem_cons, List.not_mem_nil, or_false] at ha
      rcases ha with rfl | rfl | rfl <;>
        (simp only [Rect.memHO]; rintro ⟨⟨a1, a2, a3, a4⟩, ⟨b1, b2, b3, b4⟩⟩; linarith)
    · intro a ha
      simp only [List.mem_cons, List.not_mem_nil, or_false] at ha
      rcases ha with rfl | rfl <;>
        (simp only [Rect.memHO]; rintro ⟨⟨a1, a2, a3, a4⟩, ⟨b1, b2, b3, b4⟩⟩; linarith)
    · intro a ha
      simp only [List.mem_cons, List.not_mem_nil, or_false] at ha
      rcases ha with rfl
      simp only [Rect.memHO]
      rintro ⟨⟨a1, a2, a3, a4⟩, ⟨b1, b2, b3, b4⟩⟩
      linarith

/-- Witness for C6's tiling at a concrete node and point. -/
theorem c6_subdivision_geometry_witness :
    Rect.memHO ⟨0, 0, 2, 2⟩ 0 0 := by
  obtain ⟨q0, q1, q2, q3, heq, h0, h1, h2, h3, htile, hdisj⟩ :=
    c6_subdivision_geometry (Quadtree.leaf ⟨0, 0, 2, 2⟩ 1 [])
  refine (htile 0 0).mpr (Or.inr (Or.inl ?_))
  rw [h1]
  norm_num [Rect.memHO, Quadtree.boundary]

/-- First object of the completeness counterexample scenario. -/
def c1obj1 : GameObject := ⟨1, ⟨0, 0, 1, 1⟩⟩

/-- Second object of the completeness counterexample scenario: its
insertion succeeds and stores it in the NE child, whose boundary it
merely overlaps, although it also reaches regions that the NE boundary
does not cover. -/
def c1obj2 : GameObject := ⟨2, ⟨5, 5, 15, 15⟩⟩

/-- Query range of the completeness counterexample scenario. -/
def c1range : Rect := ⟨15, 15, 5, 5⟩

unseal Rat.add Rat.mul Rat.inv in
/-- Claim C1, evaluated on the code at a failing input: after inserting
`c1obj1` then `c1obj2` into a capacity-1 tree over `{0,0,20,20}` (both
inserts succeed and `c1obj2` is stored exactly once), the range
`c1range` intersects `c1obj2.bounds` in both orientations, yet
`query c1range` returns the empty list: pruning a child subtree whose
boundary misses the range loses a stored object that the range does
intersect, so query completeness fails. -/
theorem c1_completeness_failure_eval :
    (Quadtree.insertAllF 3 (Quadtree.leaf ⟨0, 0, 20, 20⟩ 1 []) [c1obj1, c1obj2]).map
      (fun t => (Multiset.count c1obj2 (Quadtree.allObjects t), Quadtree.query t c1range)) =
      some (1, []) ∧
    Rect.intersects c1obj2.bounds c1range = true ∧
    Rect.intersects c1range c1obj2.bounds = true := by decide

/-- The eight objects of the spec's concrete scenario, in insertion order. -/
def mainObjects : List GameObject :=
  [⟨1, ⟨10, 10, 20, 20⟩⟩, ⟨2, ⟨700, 50, 30, 30⟩⟩, ⟨3, ⟨50, 500, 40, 40⟩⟩,
   ⟨4, ⟨300, 250, 50, 50⟩⟩, ⟨5, ⟨320, 270, 10, 10⟩⟩, ⟨6, ⟨150, 150, 60, 60⟩⟩,
   ⟨7, ⟨380, 290, 20, 20⟩⟩, ⟨8, ⟨750, 550, 10, 10⟩⟩]

unseal Rat.add Rat.mul Rat.inv in
/-- Claim C2, evaluated on the code: on the spec's scenario (world
`{0,0,800,600}`, capacity 4, the eight objects in order) the code
returns ids `[4, 5]` for the range `{280,200,100,100}` — not `{4,5,7}`
as claimed — although object 7 is stored exactly once and its bounds do
intersect that range (it sits in the NE child `{400,0,400,300}`, which
the range misses, so the subtree is pruned); the second query returns
exactly `[1]` as claimed. -/
theorem c2_scenario_eval :
    (Quadtree.insertAllF 5 (Quadtree.leaf ⟨0, 0, 800, 600⟩ 4 []) mainObjects).map
      (fun t => ((Quadtree.query t ⟨280, 200, 100, 100⟩).map GameObject.id,
        (Quadtree.query t ⟨0, 0, 100, 100⟩).map GameObject.id,
        Multiset.count ⟨7, ⟨380, 290, 20, 20⟩⟩ (Quadtree.allObjects t))) =
      some ([4, 5], [1], 1) ∧
    Rect.intersects (⟨380, 290, 20, 20⟩ : Rect) ⟨280, 200, 100, 100⟩ = true := by decide
